import Mathlib

/-!
Verification of the google-soar ROI reporting scripts
(`roi-report-poc.py` and `roi-report-seaborn.py`).

Python dictionaries are embedded as insertion-ordered association lists
with unique keys; dictionary reads that may raise `KeyError` are embedded
through `Option`, and the exception flow of the aggregation loop through
`Except`.  HTTP responses are embedded as records carrying the status
code, the body text, and the decoded JSON fields the scripts read.
-/

namespace GoogleSoar

/-- Playbook-time table and running-totals mappings: Python dicts from
playbook name to minutes, as insertion-ordered association lists. -/
abbrev Table := List (String × Int)

abbrev Totals := List (String × Int)

/-- Dictionary read `m[k]`: first binding of `k`, `none` when absent
(Python `KeyError`). -/
def lookupTotals : Totals → String → Option Int
  | [], _ => none
  | (k', v) :: rest, k => if k' = k then some v else lookupTotals rest k

/-- Python `k in m`. -/
def containsKey (m : Totals) (k : String) : Bool :=
  (lookupTotals m k).isSome

/-- Dictionary read with a default, used to state totals values. -/
def getD (m : Totals) (k : String) (d : Int) : Int :=
  (lookupTotals m k).getD d

/-- Dictionary write `m[k] = v`: replace the binding in place when the key
exists, append it otherwise (Python dict insertion-order semantics). -/
def setVal : Totals → String → Int → Totals
  | [], k, v => [(k, v)]
  | (k', v') :: rest, k, v =>
    if k' = k then (k', v) :: rest else (k', v') :: setVal rest k v

/-- The `playbook_time_def_map` constant of both scripts. -/
def playbook_time_def_map : Table :=
  [("Enrich Defender ATP Alerts", 30),
   ("Enrich Falcon Alerts", 5),
   ("Enrich FireEye Alerts", 25),
   ("Enrich Rapid7  Alerts", 60),
   ("__unconfigured__", 10)]

/-- An element of the `alertCards` array of a case-detail payload; the
`playbookAttached` field may be absent (`none`). -/
structure AlertCard where
  playbookAttached : Option String
deriving DecidableEq

/-- A case-detail HTTP response: status code, body text, and the decoded
`alertCards` array (read only on status 200). -/
structure CaseDetailResponse where
  status : Nat
  text : String
  alertCards : List AlertCard
deriving DecidableEq

/-- An element of the `results` array of a case-search payload. -/
structure SearchResult where
  id : String
deriving DecidableEq

/-- A case-search HTTP response: status code, body text, and the decoded
`results` array (read only on status 200). -/
structure SearchResponse where
  status : Nat
  text : String
  results : List SearchResult
deriving DecidableEq

/-- The list comprehension
`[alert_card['playbookAttached'] for alert_card in json_data['alertCards']]`:
raises `KeyError` as soon as some card has no `playbookAttached` field. -/
def extractPlaybooks : List AlertCard → Except String (List String)
  | [] => .ok []
  | c :: rest =>
    match c.playbookAttached with
    | some pb => (extractPlaybooks rest).map (fun l => pb :: l)
    | none => .error "KeyError: playbookAttached"

/-- One iteration of `for pb in playbook_attached_list` in
`sum_hours_saved_by_case_id` / `sum_minutes_saved_by_case_id`:

* `pb in roi_counts` and `pb` in the table: `roi_counts[pb] += table[pb]`;
* `pb in roi_counts` and `pb` not in the table: the table read raises
  `KeyError`, the outer `except Exception` runs `roi_counts[pb] += 999`;
* `pb` not in `roi_counts` and `pb` in the table: `roi_counts[pb] = table[pb]`;
* `pb` not in `roi_counts`, `pb` not in the table, default key present:
  the inner `except KeyError` runs `roi_counts[pb] = table['__unconfigured__']`;
* `pb` not in `roi_counts`, neither key in the table: the read inside the
  inner handler raises, the outer handler's `roi_counts[pb]` read raises
  again, and the `KeyError` escapes the function. -/
def processPb (table : Table) (roi : Totals) (pb : String) : Except String Totals :=
  if containsKey roi pb then
    match lookupTotals table pb with
    | some v => .ok (setVal roi pb (getD roi pb 0 + v))
    | none => .ok (setVal roi pb (getD roi pb 0 + 999))
  else
    match lookupTotals table pb with
    | some v => .ok (setVal roi pb v)
    | none =>
      match lookupTotals table "__unconfigured__" with
      | some d => .ok (setVal roi pb d)
      | none => .error "KeyError: __unconfigured__"

/-- The whole `for pb in playbook_attached_list` loop; an escaping
exception carries the totals as mutated by the earlier iterations. -/
def processPbs (table : Table) (roi : Totals) : List String → Except (String × Totals) Totals
  | [] => .ok roi
  | pb :: rest =>
    match processPb table roi pb with
    | .ok roiNext => processPbs table roiNext rest
    | .error e => .error (e, roi)

/-- Outcome of one per-case aggregation call: `ok` carries the updated
totals and the error lines printed (status and body of a failed fetch);
`err` is an unhandled exception escaping the call, carrying the totals as
they stood when it was raised. -/
inductive AggResult where
  | ok (roi : Totals) (log : List (Nat × String))
  | err (msg : String) (roi : Totals)
deriving DecidableEq

/-- The totals as left behind by a per-case call, whatever its outcome. -/
def AggResult.roi : AggResult → Totals
  | .ok r _ => r
  | .err _ r => r

/-- `sum_hours_saved_by_case_id` of `roi-report-poc.py` (lines 119-149),
as a function of the detail response for the given case: on status 200 it
extracts the playbook names and runs the accumulation loop; on any other
status it prints the status and body and returns with the totals
untouched. -/
def sum_hours_saved_by_case_id (table : Table) (roi : Totals)
    (resp : CaseDetailResponse) : AggResult :=
  if resp.status = 200 then
    match extractPlaybooks resp.alertCards with
    | .error e => .err e roi
    | .ok pbs =>
      match processPbs table roi pbs with
      | .ok roiNext => .ok roiNext []
      | .error (e, roiNext) => .err e roiNext
  else
    .ok roi [(resp.status, resp.text)]

/-- `sum_minutes_saved_by_case_id` of `roi-report-seaborn.py`
(lines 118-147), identical logic to the poc variant. -/
def sum_minutes_saved_by_case_id : Table → Totals → CaseDetailResponse → AggResult :=
  sum_hours_saved_by_case_id

/-- `get_case_ids` (lines 79-116 of the poc): on status 200 it returns the
`id` of every element of `results`, in delivered order, with no error
output; otherwise it prints the status and body and returns the empty
list.  The second component is the printed error report. -/
def get_case_ids (resp : SearchResponse) : List String × List (Nat × String) :=
  if resp.status = 200 then (resp.results.map SearchResult.id, [])
  else ([], [(resp.status, resp.text)])

/-- Outcome of one reporting run: final totals, the case ids for which a
detail fetch was issued, the error lines printed, and whether an
unhandled exception aborted the run. -/
structure RunOutcome where
  roi : Totals
  fetched : List String
  log : List (Nat × String)
  crashed : Bool
deriving DecidableEq

/-- The `for case_id in get_case_ids(): sum_hours_saved_by_case_id(case_id)`
loop of `__main__`: one detail fetch per case, an unhandled exception
aborts the loop. -/
def runCases (table : Table) (details : String → CaseDetailResponse)
    (roi : Totals) : List String → RunOutcome
  | [] => ⟨roi, [], [], false⟩
  | cid :: rest =>
    match sum_hours_saved_by_case_id table roi (details cid) with
    | .ok roiNext log =>
      let o := runCases table details roiNext rest
      ⟨o.roi, cid :: o.fetched, log ++ o.log, o.crashed⟩
    | .err _ roiNext => ⟨roiNext, [cid], [], true⟩

/-- The whole `__main__` report of the poc script: list the cases for the
window, then aggregate each, starting from the empty `roi_counts`. -/
def runReport (table : Table) (search : SearchResponse)
    (details : String → CaseDetailResponse) : RunOutcome :=
  let idsLog := get_case_ids search
  let o := runCases table details [] idsLog.1
  ⟨o.roi, o.fetched, idsLog.2 ++ o.log, o.crashed⟩

/-- The window queried by iteration `i` of the seaborn day loop
(lines 154-160), in whole days relative to the epoch: the code computes
`end_date` as today's UTC midnight on every iteration and
`start_date = end_date - timedelta(days=i+1)`. -/
def dayWindow (midnightToday : Int) (i : Nat) : Int × Int :=
  (midnightToday - ((i : Int) + 1), midnightToday)

/-- The window C2 describes for iteration `i`: one calendar day,
`[midnight - (i+1) days, midnight - i days)`. -/
def dayWindowSpec (midnightToday : Int) (i : Nat) : Int × Int :=
  (midnightToday - ((i : Int) + 1), midnightToday - (i : Int))

/-- Body of the grand-total loop of the seaborn `__main__`
(lines 170-174): `total[p] += m` when `p` is already a key, else
`total[p] = m`. -/
def addDayEntry (total : Totals) (pm : String × Int) : Totals :=
  if containsKey total pm.1 then setVal total pm.1 (getD total pm.1 0 + pm.2)
  else setVal total pm.1 pm.2

/-- Folding one day's `roi_counts.items()` into `total_minutes_saved`. -/
def addDayTotals (total day : Totals) : Totals :=
  day.foldl addDayEntry total

/-- `total_minutes_saved` after all day iterations: each day's totals
folded in turn into the initially empty grand total. -/
def grand_total (days : List Totals) : Totals :=
  days.foldl addDayTotals []

/-- `required_env_vars = ['APP_KEY', 'BASE_URL']` (line 56 of the poc). -/
def required_env_vars : List String := ["APP_KEY", "BASE_URL"]

/-- `missing_vars = [var for var in required_env_vars if os.environ.get(var) is None]`,
over an environment embedded as a partial map from name to value. -/
def missing_vars (env : String → Option String) : List String :=
  required_env_vars.filter (fun v => (env v).isNone)

/-- Observable outcome of the whole process: exit code, the variable names
cited in the stderr diagnostic, whether any network request was issued,
and the report run when startup proceeded. -/
structure ProgramOutcome where
  exitCode : Nat
  stderrVars : List String
  networkAttempted : Bool
  outcome : Option RunOutcome

/-- The module-level startup check (lines 55-62) followed by the report:
when `missing_vars` is non-empty the process prints the missing names to
stderr and exits with code 1 before any request; otherwise it runs the
report (exit 0 unless an unhandled exception escapes). -/
def programMain (env : String → Option String) (table : Table)
    (search : SearchResponse) (details : String → CaseDetailResponse) :
    ProgramOutcome :=
  let mv := missing_vars env
  if mv.isEmpty then
    let o := runReport table search details
    ⟨if o.crashed then 1 else 0, [], true, some o⟩
  else
    ⟨1, mv, false, none⟩

/-- Totals evolution relation: every key of `a` is still a key of `b`
with a value at least as large. -/
def totalsLE (a b : Totals) : Prop :=
  ∀ k, containsKey a k = true →
    containsKey b k = true ∧ getD a k 0 ≤ getD b k 0

/-! ### Dictionary lemmas -/

theorem lookup_setVal (m : Totals) (k k' : String) (v : Int) :
    lookupTotals (setVal m k v) k' =
      if k' = k then some v else lookupTotals m k' := by
  induction m with
  | nil =>
    by_cases h : k' = k
    · subst h; simp [setVal, lookupTotals]
    · have hne : ¬ k = k' := fun hh => h hh.symm
      simp [setVal, lookupTotals, h, hne]
  | cons hd tl ih =>
    obtain ⟨a, b⟩ := hd
    by_cases hak : a = k
    · subst hak
      by_cases hk : k' = a
      · subst hk; simp [setVal, lookupTotals]
      · have hne : ¬ a = k' := fun hh => hk hh.symm
        simp [setVal, lookupTotals, hk, hne]
    · by_cases hak' : a = k'
      · subst hak'
        simp [setVal, lookupTotals, hak]
      · simp [setVal, lookupTotals, hak, hak', ih]

theorem containsKey_setVal (m : Totals) (k k' : String) (v : Int) :
    containsKey (setVal m k v) k' =
      if k' = k then true else containsKey m k' := by
  simp only [containsKey, lookup_setVal]
  split <;> simp

theorem getD_setVal (m : Totals) (k k' : String) (v d : Int) :
    getD (setVal m k v) k' d =
      if k' = k then v else getD m k' d := by
  simp only [getD, lookup_setVal]
  split <;> simp

theorem getD_eq_zero_of_not_contains (m : Totals) (k : String)
    (h : containsKey m k = false) : getD m k 0 = 0 := by
  unfold containsKey at h
  cases hl : lookupTotals m k with
  | none => simp [getD, hl]
  | some v => rw [hl] at h; simp at h

/-! ### Claim theorems (C1 - C6, C9) -/

/-- Table with only the default key, for the C1 evaluation. -/
def tableC1 : Table := [("__unconfigured__", 10)]

/-- A 200 case-detail payload whose cards name the unconfigured playbook
"B" twice. -/
def respC1 : CaseDetailResponse := ⟨200, "", [⟨some "B"⟩, ⟨some "B"⟩]⟩

/-- Claim C1 (code-bug evaluation): with table `{"__unconfigured__": 10}`
and one successful case whose cards name `["B", "B"]`, the code produces
`{"B": 1009}` — the first occurrence accumulates the default 10, but the
second takes the `pb in roi_counts` branch, the table read raises
`KeyError`, and the outer handler adds 999.  The claim (and the script's
own comment) demands the default rate on every occurrence, i.e. 20. -/
theorem unconfigured_repeat_gets_999 :
    sum_hours_saved_by_case_id tableC1 [] respC1 = .ok [("B", 1009)] [] ∧
    getD (sum_hours_saved_by_case_id tableC1 [] respC1).roi "B" 0 ≠ 2 * 10 := by
  constructor <;> decide

/-- Claim C2 (code-bug evaluation): in the seaborn day loop, iteration 1
queries a window two days long (the code pins `endTime` to today's UTC
midnight on every iteration), which differs from the one-day window the
claim describes and overlaps iteration 0's window. -/
theorem dayWindow_not_one_day :
    (dayWindow 0 1).2 - (dayWindow 0 1).1 = 2 ∧
    dayWindow 0 1 ≠ dayWindowSpec 0 1 ∧
    (dayWindow 0 0).1 < (dayWindow 0 1).2 ∧ (dayWindow 0 1).1 < (dayWindow 0 0).2 := by
  refine ⟨by decide, by decide, by decide, by decide⟩

theorem extractPlaybooks_error_of_missing (cards : List AlertCard)
    (h : ∃ c ∈ cards, c.playbookAttached = none) :
    extractPlaybooks cards = .error "KeyError: playbookAttached" := by
  induction cards with
  | nil => simp at h
  | cons c rest ih =>
    match hc : c.playbookAttached with
    | none => simp [extractPlaybooks, hc]
    | some pb =>
      obtain ⟨d, hd, hdn⟩ := h
      rcases List.mem_cons.mp hd with rfl | hmem
      · rw [hc] at hdn; cases hdn
      · have hrest := ih ⟨d, hmem, hdn⟩
        simp [extractPlaybooks, hc, hrest, Except.map]

/-- The table of the worked example in §8 of the spec. -/
def tableC9 : Table := [("A", 30), ("__unconfigured__", 10)]

/-- A 200 case-detail payload in which the second alert card has no
`playbookAttached` field. -/
def respC3 : CaseDetailResponse := ⟨200, "", [⟨some "A"⟩, ⟨none⟩]⟩

/-- Claim C3 counterexample: on a 200 payload whose second card has no
`playbookAttached` field, the aggregator does NOT complete — the list
comprehension raises `KeyError`, the call ends in an unhandled exception,
and no card of the case (not even the first, which names "A") is
accumulated. -/
theorem missing_playbookAttached_raises :
    sum_hours_saved_by_case_id tableC9 [] respC3 =
      .err "KeyError: playbookAttached" [] := by
  decide

/-- Claim C3 amended: for every 200 case-detail payload in which some
alert card has no `playbookAttached` field, the per-case aggregation does
not complete: the extraction raises `KeyError` before any accumulation,
so the call ends in an unhandled exception with Running Totals exactly as
before, and no card of that case is accumulated. -/
theorem missing_field_aborts_case (table : Table) (roi : Totals)
    (resp : CaseDetailResponse) (hst : resp.status = 200)
    (hcard : ∃ c ∈ resp.alertCards, c.playbookAttached = none) :
    sum_hours_saved_by_case_id table roi resp =
      .err "KeyError: playbookAttached" roi := by
  simp [sum_hours_saved_by_case_id, hst,
    extractPlaybooks_error_of_missing _ hcard]

theorem missing_field_aborts_case_witness :
    sum_hours_saved_by_case_id tableC9 [("X", 1)] ⟨200, "", [⟨none⟩]⟩ =
      .err "KeyError: playbookAttached" [("X", 1)] :=
  missing_field_aborts_case tableC9 [("X", 1)] ⟨200, "", [⟨none⟩]⟩
    (by decide) ⟨⟨none⟩, by decide, rfl⟩

/-- Claim C4: at any increment step where the playbook name is already a
key of Running Totals but not a key of the Playbook Time Table, the step
does not fail: it adds the fixed 999 penalty to that name's entry. -/
theorem processPb_penalty_999 (table : Table) (roi : Totals) (pb : String)
    (hin : containsKey roi pb = true) (htab : lookupTotals table pb = none) :
    processPb table roi pb = .ok (setVal roi pb (getD roi pb 0 + 999)) := by
  simp [processPb, hin, htab]

theorem processPb_penalty_999_witness :
    processPb [("A", 5)] [("B", 7)] "B" =
      .ok (setVal [("B", 7)] "B" (getD [("B", 7)] "B" 0 + 999)) :=
  processPb_penalty_999 [("A", 5)] [("B", 7)] "B" (by decide) (by decide)

/-- Claim C5: when a case's detail fetch returns a non-200 status, the
per-case call reports the status and body, returns with Running Totals
exactly unchanged, and the main loop continues with the remaining cases
(same final totals, same crash status, that case still counted fetched). -/
theorem detail_fetch_failure_preserves_totals (table : Table) (roi : Totals)
    (details : String → CaseDetailResponse) (cid : String) (rest : List String)
    (hst : (details cid).status ≠ 200) :
    sum_hours_saved_by_case_id table roi (details cid) =
      .ok roi [((details cid).status, (details cid).text)] ∧
    (runCases table details roi (cid :: rest)).roi =
      (runCases table details roi rest).roi ∧
    (runCases table details roi (cid :: rest)).crashed =
      (runCases table details roi rest).crashed ∧
    (runCases table details roi (cid :: rest)).fetched =
      cid :: (runCases table details roi rest).fetched := by
  have h1 : sum_hours_saved_by_case_id table roi (details cid) =
      .ok roi [((details cid).status, (details cid).text)] := by
    simp [sum_hours_saved_by_case_id, hst]
  refine ⟨h1, ?_, ?_, ?_⟩ <;> simp [runCases, h1]

theorem detail_fetch_failure_witness :
    sum_hours_saved_by_case_id [] [("A", 1)]
        ((fun _ => ⟨404, "nf", []⟩ : String → CaseDetailResponse) "c") =
      .ok [("A", 1)] [(404, "nf")] :=
  (detail_fetch_failure_preserves_totals [] [("A", 1)]
    (fun _ => ⟨404, "nf", []⟩) "c" [] (by decide)).1

/-- Claim C6: a non-200 case-search response makes the Case Lister report
the status and body and return the empty id list, so the run issues no
detail fetch, never crashes there, and ends with empty Running Totals; a
200 response yields exactly the `id` of each element of `results`, in
delivered order. -/
theorem get_case_ids_contract (table : Table) (resp : SearchResponse)
    (details : String → CaseDetailResponse) :
    (resp.status ≠ 200 →
      get_case_ids resp = ([], [(resp.status, resp.text)]) ∧
      (runReport table resp details).roi = [] ∧
      (runReport table resp details).fetched = [] ∧
      (runReport table resp details).crashed = false) ∧
    (resp.status = 200 →
      (get_case_ids resp).1 = resp.results.map SearchResult.id ∧
      (get_case_ids resp).2 = []) := by
  constructor
  · intro h
    have hg : get_case_ids resp = ([], [(resp.status, resp.text)]) := by
      simp [get_case_ids, h]
    refine ⟨hg, ?_, ?_, ?_⟩ <;> simp [runReport, hg, runCases]
  · intro h
    simp [get_case_ids, h]

theorem get_case_ids_contract_witness :
    (runReport [] ⟨404, "boom", [⟨"z"⟩]⟩ (fun _ => ⟨200, "", []⟩)).roi = [] :=
  ((get_case_ids_contract [] ⟨404, "boom", [⟨"z"⟩]⟩
    (fun _ => ⟨200, "", []⟩)).1 (by decide)).2.1

/-- The case-search response of the §8 worked example: two cases. -/
def searchC9 : SearchResponse := ⟨200, "", [⟨"1"⟩, ⟨"2"⟩]⟩

/-- The case-detail responses of the §8 worked example: case 1 has cards
naming "A" and "B", case 2 a card naming "A". -/
def detailsC9 : String → CaseDetailResponse := fun cid =>
  if cid = "1" then ⟨200, "", [⟨some "A"⟩, ⟨some "B"⟩]⟩
  else ⟨200, "", [⟨some "A"⟩]⟩

/-- Claim C9: with table `{"A": 30, "__unconfigured__": 10}`, case 1
delivering cards naming `["A", "B"]` and case 2 delivering `["A"]` (both
fetches 200), the final Running Totals is exactly `{"A": 60, "B": 10}`,
with no crash and both cases fetched. -/
theorem runReport_example_totals :
    (runReport tableC9 searchC9 detailsC9).roi = [("A", 60), ("B", 10)] ∧
    (runReport tableC9 searchC9 detailsC9).crashed = false := by
  constructor <;> decide

/-! ### Grand-total lemmas (C7) -/

/-- Sum of the minutes of the entries of `day` whose key is `P`. -/
def sumFor (day : Totals) (P : String) : Int :=
  (day.map (fun pm => if pm.1 = P then pm.2 else 0)).sum

theorem sumFor_cons (pm : String × Int) (rest : Totals) (P : String) :
    sumFor (pm :: rest) P = (if pm.1 = P then pm.2 else 0) + sumFor rest P := by
  simp [sumFor]

theorem containsKey_cons (p : String) (v : Int) (rest : Totals) (k : String) :
    containsKey ((p, v) :: rest) k = if p = k then true else containsKey rest k := by
  simp only [containsKey, lookupTotals]
  split <;> simp

theorem getD_addDayEntry (t : Totals) (pm : String × Int) (P : String) :
    getD (addDayEntry t pm) P 0 = getD t P 0 + (if pm.1 = P then pm.2 else 0) := by
  obtain ⟨p, m⟩ := pm
  by_cases hP : P = p
  · subst hP
    cases hc : containsKey t P with
    | true => simp [addDayEntry, hc, getD_setVal]
    | false =>
      simp [addDayEntry, hc, getD_setVal, getD_eq_zero_of_not_contains t P hc]
  · have hp : ¬ p = P := fun hh => hP hh.symm
    cases hc : containsKey t p with
    | true => simp [addDayEntry, hc, getD_setVal, hP, hp]
    | false => simp [addDayEntry, hc, getD_setVal, hP, hp]

theorem containsKey_addDayEntry (t : Totals) (pm : String × Int) (P : String) :
    containsKey (addDayEntry t pm) P =
      if P = pm.1 then true else containsKey t P := by
  obtain ⟨p, m⟩ := pm
  cases hc : containsKey t p with
  | true => simp [addDayEntry, hc, containsKey_setVal]
  | false => simp [addDayEntry, hc, containsKey_setVal]

theorem getD_foldl_addDayEntry (day : Totals) (t : Totals) (P : String) :
    getD (day.foldl addDayEntry t) P 0 = getD t P 0 + sumFor day P := by
  induction day generalizing t with
  | nil => simp [sumFor]
  | cons pm rest ih =>
    simp only [List.foldl_cons, ih, getD_addDayEntry, sumFor_cons]
    ring

theorem containsKey_foldl_addDayEntry (day t : Totals) (P : String) :
    containsKey (day.foldl addDayEntry t) P =
      (containsKey t P || containsKey day P) := by
  induction day generalizing t with
  | nil => simp [containsKey, lookupTotals]
  | cons pm rest ih =>
    obtain ⟨p, m⟩ := pm
    by_cases h : P = p
    · subst h
      simp [ih, containsKey_addDayEntry, containsKey_cons]
    · have h2 : ¬ p = P := fun hh => h hh.symm
      simp [ih, containsKey_addDayEntry, containsKey_cons, h, h2, Bool.or_assoc]

theorem sumFor_eq_zero_of_not_mem (day : Totals) (P : String)
    (h : P ∉ day.map Prod.fst) : sumFor day P = 0 := by
  induction day with
  | nil => simp [sumFor]
  | cons pm rest ih =>
    simp only [List.map_cons, List.mem_cons, not_or] at h
    have h1 : ¬ pm.1 = P := fun hh => h.1 hh.symm
    rw [sumFor_cons, if_neg h1, ih h.2]
    ring

theorem sumFor_eq_getD (day : Totals) (P : String)
    (hnd : (day.map Prod.fst).Nodup) :
    sumFor day P = getD day P 0 := by
  induction day with
  | nil => simp [sumFor, getD, lookupTotals]
  | cons pm rest ih =>
    obtain ⟨p, m⟩ := pm
    simp only [List.map_cons, List.nodup_cons] at hnd
    obtain ⟨hp, hrest⟩ := hnd
    by_cases h : p = P
    · subst h
      rw [sumFor_cons, if_pos rfl, sumFor_eq_zero_of_not_mem rest p hp]
      simp [getD, lookupTotals]
    · rw [sumFor_cons, if_neg h, ih hrest]
      simp [getD, lookupTotals, h]

theorem getD_grand_total_aux (days : List Totals) (t : Totals) (P : String) :
    getD (days.foldl addDayTotals t) P 0 =
      getD t P 0 + (days.map (fun d => sumFor d P)).sum := by
  induction days generalizing t with
  | nil => simp
  | cons d rest ih =>
    simp only [List.foldl_cons, ih, List.map_cons, List.sum_cons, addDayTotals,
      getD_foldl_addDayEntry]
    ring

theorem containsKey_grand_total_aux (days : List Totals) (t : Totals) (P : String) :
    containsKey (days.foldl addDayTotals t) P =
      (containsKey t P || days.any (fun d => containsKey d P)) := by
  induction days generalizing t with
  | nil => simp
  | cons d rest ih =>
    simp [addDayTotals, ih, containsKey_foldl_addDayEntry, Bool.or_assoc]

/-- Claim C7: after the seaborn grand-total loop has folded in every
day's Running Totals (each a genuine dict: keys unique), the grand-total
entry for playbook `P` equals the sum over the days of that day's entry
for `P` (absent entries counting 0), and `P` is a key of the grand total
exactly when it is a key of at least one day's totals. -/
theorem grand_total_correct (days : List Totals) (P : String)
    (hnd : ∀ d ∈ days, (d.map Prod.fst).Nodup) :
    getD (grand_total days) P 0 = (days.map (fun d => getD d P 0)).sum ∧
    (containsKey (grand_total days) P = true ↔
      ∃ d ∈ days, containsKey d P = true) := by
  constructor
  · rw [grand_total, getD_grand_total_aux,
      List.map_congr_left (fun d hd => sumFor_eq_getD d P (hnd d hd))]
    simp [getD, lookupTotals]
  · rw [grand_total, containsKey_grand_total_aux]
    simp [containsKey, lookupTotals, List.any_eq_true]

theorem grand_total_correct_witness :
    getD (grand_total [[("A", 3)], [("A", 4), ("B", 1)]]) "A" 0 =
      ([[("A", 3)], [("A", 4), ("B", 1)]].map
        (fun d => getD d "A" 0)).sum :=
  (grand_total_correct [[("A", 3)], [("A", 4), ("B", 1)]] "A" (by decide)).1

/-! ### Monotonicity lemmas (C10) -/

theorem totalsLE_refl (a : Totals) : totalsLE a a :=
  fun _ hk => ⟨hk, le_refl _⟩

theorem totalsLE_trans {a b c : Totals} (h1 : totalsLE a b) (h2 : totalsLE b c) :
    totalsLE a c :=
  fun k hk => ⟨(h2 k (h1 k hk).1).1, le_trans (h1 k hk).2 (h2 k (h1 k hk).1).2⟩

theorem totalsLE_setVal_add (roi : Totals) (pb : String) (v : Int) (hv : 0 ≤ v) :
    totalsLE roi (setVal roi pb (getD roi pb 0 + v)) := by
  intro k hk
  constructor
  · rw [containsKey_setVal]
    split <;> simp [hk]
  · rw [getD_setVal]
    split
    · next h => subst h; exact le_add_of_nonneg_right hv
    · exact le_refl _

theorem totalsLE_setVal_new (roi : Totals) (pb : String) (v : Int)
    (hnew : containsKey roi pb = false) :
    totalsLE roi (setVal roi pb v) := by
  intro k hk
  have hne : ¬ k = pb := by
    intro hh
    rw [hh, hnew] at hk
    cases hk
  constructor
  · rw [containsKey_setVal]
    simp [hne, hk]
  · rw [getD_setVal]
    simp [hne]

theorem lookupTotals_mem (m : Totals) (k : String) (v : Int)
    (h : lookupTotals m k = some v) : (k, v) ∈ m := by
  induction m with
  | nil => simp [lookupTotals] at h
  | cons pm rest ih =>
    obtain ⟨a, b⟩ := pm
    by_cases hak : a = k
    · subst hak
      rw [lookupTotals, if_pos rfl] at h
      have hb : b = v := Option.some.inj h
      subst hb
      exact List.mem_cons_self _ _
    · rw [lookupTotals, if_neg hak] at h
      exact List.mem_cons_of_mem _ (ih h)

theorem processPb_mono (table : Table) (roi : Totals) (pb : String)
    (roiNext : Totals) (htab : ∀ pv ∈ table, 0 ≤ pv.2)
    (h : processPb table roi pb = .ok roiNext) :
    totalsLE roi roiNext := by
  unfold processPb at h
  cases hin : containsKey roi pb with
  | true =>
    rw [hin] at h
    cases hl : lookupTotals table pb with
    | some v =>
      rw [hl] at h
      simp only [if_true, Except.ok.injEq] at h
      subst h
      exact totalsLE_setVal_add roi pb v (htab (pb, v) (lookupTotals_mem _ _ _ hl))
    | none =>
      rw [hl] at h
      simp only [if_true, Except.ok.injEq] at h
      subst h
      exact totalsLE_setVal_add roi pb 999 (by norm_num)
  | false =>
    rw [hin] at h
    cases hl : lookupTotals table pb with
    | some v =>
      rw [hl] at h
      simp only [Bool.false_eq_true, if_false, Except.ok.injEq] at h
      subst h
      exact totalsLE_setVal_new roi pb v hin
    | none =>
      rw [hl] at h
      cases hd : lookupTotals table "__unconfigured__" with
      | some d =>
        rw [hd] at h
        simp only [Bool.false_eq_true, if_false, Except.ok.injEq] at h
        subst h
        exact totalsLE_setVal_new roi pb d hin
      | none =>
        rw [hd] at h
        simp at h

theorem processPbs_mono (table : Table) (pbs : List String) (roi : Totals)
    (htab : ∀ pv ∈ table, 0 ≤ pv.2) :
    (∀ roiNext, processPbs table roi pbs = .ok roiNext → totalsLE roi roiNext) ∧
    (∀ e roiNext, processPbs table roi pbs = .error (e, roiNext) →
      totalsLE roi roiNext) := by
  induction pbs generalizing roi with
  | nil =>
    constructor
    · intro roiNext h
      simp only [processPbs, Except.ok.injEq] at h
      subst h
      exact totalsLE_refl roi
    · intro e roiNext h
      simp [processPbs] at h
  | cons pb rest ih =>
    cases hp : processPb table roi pb with
    | ok roiMid =>
      have h1 := processPb_mono table roi pb roiMid htab hp
      constructor
      · intro roiNext h
        rw [processPbs, hp] at h
        exact totalsLE_trans h1 ((ih roiMid).1 roiNext h)
      · intro e roiNext h
        rw [processPbs, hp] at h
        exact totalsLE_trans h1 ((ih roiMid).2 e roiNext h)
    | error e0 =>
      constructor
      · intro roiNext h
        rw [processPbs, hp] at h
        simp at h
      · intro e roiNext h
        rw [processPbs, hp] at h
        simp only [Except.error.injEq, Prod.mk.injEq] at h
        rw [← h.2]
        exact totalsLE_refl roi

/-- Claim C10: every per-case aggregation call, whatever its outcome
(successful accumulation, detail-fetch failure, or any penalty branch),
leaves every key of Running Totals present with a value at least as
large, provided the table's per-execution values are non-negative; this
holds for the poc and the seaborn variant alike (the embedded table is
pass-by-value and never written, so the Playbook Time Table is unchanged
by construction). -/
theorem aggregator_preserves_totals (table : Table) (roi : Totals)
    (resp : CaseDetailResponse) (htab : ∀ pv ∈ table, 0 ≤ pv.2) :
    totalsLE roi (sum_hours_saved_by_case_id table roi resp).roi ∧
    totalsLE roi (sum_minutes_saved_by_case_id table roi resp).roi := by
  have main : totalsLE roi (sum_hours_saved_by_case_id table roi resp).roi := by
    unfold sum_hours_saved_by_case_id
    by_cases hst : resp.status = 200
    · rw [if_pos hst]
      cases he : extractPlaybooks resp.alertCards with
      | error e => exact totalsLE_refl roi
      | ok pbs =>
        have hmono := processPbs_mono table pbs roi htab
        cases hps : processPbs table roi pbs with
        | ok roiNext =>
          simp only [hps, AggResult.roi]
          exact hmono.1 roiNext hps
        | error p =>
          obtain ⟨e, roiNext⟩ := p
          simp only [hps, AggResult.roi]
          exact hmono.2 e roiNext hps
    · rw [if_neg hst]
      exact totalsLE_refl roi
  exact ⟨main, main⟩

theorem aggregator_preserves_totals_witness :
    totalsLE [("Enrich Falcon Alerts", 5)]
      (sum_hours_saved_by_case_id playbook_time_def_map
        [("Enrich Falcon Alerts", 5)]
        ⟨200, "", [⟨some "Enrich Falcon Alerts"⟩]⟩).roi :=
  (aggregator_preserves_totals playbook_time_def_map
    [("Enrich Falcon Alerts", 5)]
    ⟨200, "", [⟨some "Enrich Falcon Alerts"⟩]⟩ (by decide)).1

/-- Claim C8: when either required environment variable is absent the
process exits with code 1, names every absent variable in the stderr
diagnostic, and issues no network request; when both are present startup
proceeds to the report, and a run that completes normally exits 0. -/
theorem env_check_fail_fast (env : String → Option String) (table : Table)
    (search : SearchResponse) (details : String → CaseDetailResponse) :
    ((env "APP_KEY" = none ∨ env "BASE_URL" = none) →
      (programMain env table search details).exitCode = 1 ∧
      (programMain env table search details).networkAttempted = false ∧
      (programMain env table search details).stderrVars ≠ [] ∧
      (env "APP_KEY" = none →
        "APP_KEY" ∈ (programMain env table search details).stderrVars) ∧
      (env "BASE_URL" = none →
        "BASE_URL" ∈ (programMain env table search details).stderrVars)) ∧
    ((env "APP_KEY").isSome → (env "BASE_URL").isSome →
      (programMain env table search details).outcome =
        some (runReport table search details) ∧
      ((runReport table search details).crashed = false →
        (programMain env table search details).exitCode = 0)) := by
  cases hA : env "APP_KEY" with
  | none =>
    cases hB : env "BASE_URL" with
    | none =>
      constructor
      · intro _
        simp [programMain, missing_vars, required_env_vars, hA, hB]
      · intro hsA
        simp [hA] at hsA
    | some b =>
      constructor
      · intro _
        simp [programMain, missing_vars, required_env_vars, hA, hB]
      · intro hsA
        simp [hA] at hsA
  | some a =>
    cases hB : env "BASE_URL" with
    | none =>
      constructor
      · intro h
        rcases h with h | h
        · exact Option.noConfusion h
        · simp [programMain, missing_vars, required_env_vars, hA, hB]
      · intro _ hsB
        simp [hB] at hsB
    | some b =>
      constructor
      · intro h
        rcases h with h | h
        · exact Option.noConfusion h
        · exact Option.noConfusion h
      · intro _ _
        constructor
        · simp [programMain, missing_vars, required_env_vars, hA, hB]
        · intro hcr
          simp [programMain, missing_vars, required_env_vars, hA, hB, hcr]

theorem env_check_fail_fast_witness :
    (programMain (fun _ => none) [] ⟨200, "", []⟩
      (fun _ => ⟨200, "", []⟩)).exitCode = 1 :=
  ((env_check_fail_fast (fun _ => none) [] ⟨200, "", []⟩
    (fun _ => ⟨200, "", []⟩)).1 (Or.inl rfl)).1

end GoogleSoar
